import Mathlib

/-!
# Verification of the `useLocalStorage` storage session

A shallow embedding of `src/useLocalStorage.ts` (the revision the spec was
written against: the one with option-bearing `on`/`addEventListener` and
filter-based `off`).  The embedding models:

* the storage medium (`Storage`) as a partial map from string keys to string
  values, with the `getItem`/`setItem`/`removeItem`/`clear` contract of the
  browser storage collaborator;
* JavaScript run-time values handled by the codec (`JSValue`), with JS numbers
  modelled as exact integers and JSON structures (`Json`) restricted to
  exact-integer numbers and strings of plain characters (no quote, backslash
  or control characters, so structural serialization needs no escapes);
* `JSON.stringify` / `JSON.parse` as an executable serializer (`encChars`)
  and recursive-descent parser (`parseVal` / `jsonParse`), proved inverse on
  well-formed values;
* `String(x)` on non-objects and `parseFloat` on the integer strings the
  codec produces;
* the session object (`Session`): an optional medium (absent outside a
  browser-like context), the named-subscription list (`onList`) and the
  wildcard list (`onAnyList`), with callbacks identified by reference
  identity, modelled as numeric ids;
* each public operation (`init`, `set`, `get`, `remove`, `clear`, `off`,
  the `removeSelf` routine of `on`'s once/abort handling) and the cross-tab
  translator `handleStorage`.  Operations return the events they fired
  (`Call` values, in firing order) next to their result; operations that can
  throw return `Except JSError`.
-/

namespace ULS

/-- The closed set of event names (`type EventType` in the source). -/
inductive EventType where
  | init
  | get
  | set
  | remove
  | clear
deriving DecidableEq, Repr

/-- A named subscription: event name plus the callback's reference identity
(callbacks are modelled by numeric ids, matching JS `===` on functions). -/
structure Sub where
  event : EventType
  id : Nat
deriving DecidableEq, Repr

/-- One callback invocation, as observed by subscribers: either a named
subscriber called with the key, or a wildcard subscriber called with the
event name and the key. -/
inductive Call where
  | named (id : Nat) (key : Option String)
  | any (id : Nat) (event : EventType) (key : Option String)
deriving DecidableEq, Repr

/-- The storage medium: a map from keys to stored strings
(`getItem` returns `none` where the browser returns `null`). -/
def Storage := String → Option String

/-- `storage.getItem(k)`. -/
def getItem (st : Storage) (k : String) : Option String := st k

/-- `storage.setItem(k, v)`. -/
def setItem (st : Storage) (k v : String) : Storage :=
  fun x => if x = k then some v else st x

/-- `storage.removeItem(k)`. -/
def removeItem (st : Storage) (k : String) : Storage :=
  fun x => if x = k then none else st x

/-- `storage.clear()` result: the empty medium. -/
def emptyStorage : Storage := fun _ => none

/-- The shadow type-tag slot for a key: `'$$' + key + '_data'`. -/
def shadowKey (k : String) : String :=
  String.mk ('$' :: '$' :: (k.data ++ ['_', 'd', 'a', 't', 'a']))

/-- The value of `storageType?.getItem(k)` as seen by `get`: `undefined`
when the medium itself is absent (optional chaining), `null` when the key is
missing, otherwise the stored string. -/
inductive RawVal where
  | undef
  | null
  | str (s : String)
deriving DecidableEq, Repr

/-- Read through the optional chain: `storageType?.getItem(k)`. -/
def rawGet (m : Option Storage) (k : String) : RawVal :=
  match m with
  | none => .undef
  | some st =>
    match getItem st k with
    | none => .null
    | some s => .str s

/-! ## JSON values and the structural codec (`JSON.stringify` / `JSON.parse`),
with numbers restricted to exact integers and strings to plain characters. -/

/-- JSON structure, the domain of the object codec.  Numbers are exact
integers (the subset of JS numbers the integer model captures). -/
inductive Json where
  | null
  | bool (b : Bool)
  | num (n : Int)
  | str (s : String)
  | arr (elems : List Json)
  | obj (members : List (String × Json))
deriving Repr

/-- A character that structural serialization emits verbatim inside a string
literal: not a quote, not a backslash, not a control character. -/
def plainChar (c : Char) : Bool :=
  (c != '"') && (c != '\\') && decide (32 ≤ c.toNat)

/-- All characters of a string are plain. -/
def strPlain (s : String) : Bool := s.data.all plainChar

mutual

/-- Well-formedness for the codec model: every string (value or object key)
consists of plain characters. -/
def jwf : Json → Bool
  | .null => true
  | .bool _ => true
  | .num _ => true
  | .str s => strPlain s
  | .arr xs => jwfList xs
  | .obj ms => jwfMembers ms

/-- `jwf` on the elements of an array. -/
def jwfList : List Json → Bool
  | [] => true
  | x :: xs => jwf x && jwfList xs

/-- `jwf` on the members of an object. -/
def jwfMembers : List (String × Json) → Bool
  | [] => true
  | m :: ms => strPlain m.1 && jwf m.2 && jwfMembers ms

end

/-- Decimal digit characters for rendering. -/
def digitToChar (d : Nat) : Char :=
  match d with
  | 0 => '0' | 1 => '1' | 2 => '2' | 3 => '3' | 4 => '4'
  | 5 => '5' | 6 => '6' | 7 => '7' | 8 => '8' | _ => '9'

/-- Decimal rendering of a natural number (big-endian digit characters),
as `String(n)` produces for a nonnegative integer. -/
def natToChars (n : Nat) : List Char :=
  if n = 0 then ['0'] else ((Nat.digits 10 n).reverse.map digitToChar)

/-- `String(n)` for an integer JS number. -/
def intToChars (n : Int) : List Char :=
  if n < 0 then '-' :: natToChars n.natAbs else natToChars n.toNat

mutual

/-- `JSON.stringify` of a structure, as a character list: no whitespace,
double-quoted strings, comma-separated arrays and objects. -/
def encChars : Json → List Char
  | .null => "null".data
  | .bool true => "true".data
  | .bool false => "false".data
  | .num n => intToChars n
  | .str s => '"' :: (s.data ++ ['"'])
  | .arr [] => ['[', ']']
  | .arr (x :: xs) => '[' :: (encChars x ++ encItems xs)
  | .obj [] => ['\x7b', '\x7d']
  | .obj (m :: ms) => '\x7b' :: (encMember m ++ encMembers ms)

/-- The tail of a serialized array: `,elem`* followed by `]`. -/
def encItems : List Json → List Char
  | [] => [']']
  | x :: xs => ',' :: (encChars x ++ encItems xs)

/-- One serialized object member: `"key":value`. -/
def encMember : String × Json → List Char
  | (k, v) => '"' :: (k.data ++ ['"', ':'] ++ encChars v)

/-- The tail of a serialized object: `,member`* followed by the closing
brace. -/
def encMembers : List (String × Json) → List Char
  | [] => ['\x7d']
  | m :: ms => ',' :: (encMember m ++ encMembers ms)

end

/-- Is `c` a decimal digit character? -/
def isDigitChar (c : Char) : Bool := ('0' ≤ c) && (c ≤ '9')

/-- Consume a run of digit characters, folding them onto `acc`; stops at the
first non-digit. -/
def readDigits : List Char → Nat → Nat × List Char
  | [], acc => (acc, [])
  | c :: cs, acc =>
    if isDigitChar c then readDigits cs (acc * 10 + (c.toNat - 48))
    else (acc, c :: cs)

/-- Parse a nonempty digit run as a natural number; fails if the input does
not start with a digit. -/
def parseNat (cs : List Char) : Option (Nat × List Char) :=
  match cs with
  | [] => none
  | c :: rest =>
    if isDigitChar c then some (readDigits rest (c.toNat - 48)) else none

/-- Parse an optionally minus-signed integer. -/
def parseIntCs (cs : List Char) : Option (Int × List Char) :=
  match cs with
  | '-' :: rest => (parseNat rest).map (fun p => (-(p.1 : Int), p.2))
  | _ => (parseNat cs).map (fun p => ((p.1 : Int), p.2))

/-- Read the body of a string literal up to the closing quote, accepting only
plain characters (the escape-free fragment the serializer emits). -/
def readStr : List Char → Option (List Char × List Char)
  | [] => none
  | c :: cs =>
    if c = '"' then some ([], cs)
    else if plainChar c then (readStr cs).map (fun p => (c :: p.1, p.2))
    else none

/-- The tail of the `null` keyword after its leading `n`. -/
def parseNullKw : List Char → Option (Json × List Char)
  | 'u' :: 'l' :: 'l' :: r => some (.null, r)
  | _ => none

/-- The tail of the `true` keyword after its leading `t`. -/
def parseTrueKw : List Char → Option (Json × List Char)
  | 'r' :: 'u' :: 'e' :: r => some (.bool true, r)
  | _ => none

/-- The tail of the `false` keyword after its leading `f`. -/
def parseFalseKw : List Char → Option (Json × List Char)
  | 'a' :: 'l' :: 's' :: 'e' :: r => some (.bool false, r)
  | _ => none

mutual

/-- Recursive-descent `JSON.parse` for one value, with fuel for termination;
returns the value and the unconsumed remainder. -/
def parseVal : Nat → List Char → Option (Json × List Char)
  | 0, _ => none
  | _ + 1, [] => none
  | fuel + 1, c :: cs =>
    if c = 'n' then parseNullKw cs
    else if c = 't' then parseTrueKw cs
    else if c = 'f' then parseFalseKw cs
    else if c = '"' then
      (readStr cs).map (fun p => (.str (String.mk p.1), p.2))
    else if c = '[' then parseArrBody fuel cs
    else if c = '\x7b' then parseObjBody fuel cs
    else if (c = '-') || isDigitChar c then
      (parseIntCs (c :: cs)).map (fun p => (.num p.1, p.2))
    else none

/-- What follows the opening bracket of an array: the closing bracket or the
first element and the array's tail. -/
def parseArrBody : Nat → List Char → Option (Json × List Char)
  | _, ']' :: r => some (.arr [], r)
  | fuel + 1, cs =>
    match parseVal fuel cs with
    | some (j, r) => (parseItems fuel r).map (fun p => (.arr (j :: p.1), p.2))
    | none => none
  | 0, _ => none

/-- What follows the opening brace of an object: the closing brace or the
first `"key":value` member and the object's tail. -/
def parseObjBody : Nat → List Char → Option (Json × List Char)
  | _, '\x7d' :: r => some (.obj [], r)
  | fuel + 1, '"' :: cs2 =>
    match readStr cs2 with
    | some (k, ':' :: cs3) =>
      match parseVal fuel cs3 with
      | some (v, r) =>
        (parseMembers fuel r).map (fun p => (.obj ((String.mk k, v) :: p.1), p.2))
      | none => none
    | _ => none
  | _, _ => none

/-- Parse the tail of an array: either the closing bracket or a comma
followed by the next element. -/
def parseItems : Nat → List Char → Option (List Json × List Char)
  | 0, _ => none
  | _ + 1, ']' :: r => some ([], r)
  | fuel + 1, ',' :: cs =>
    match parseVal fuel cs with
    | some (j, r) => (parseItems fuel r).map (fun p => (j :: p.1, p.2))
    | none => none
  | _ + 1, _ => none

/-- Parse the tail of an object: either the closing brace or a comma followed
by the next `"key":value` member. -/
def parseMembers : Nat → List Char → Option (List (String × Json) × List Char)
  | 0, _ => none
  | _ + 1, '\x7d' :: r => some ([], r)
  | fuel + 1, ',' :: '"' :: cs2 =>
    match readStr cs2 with
    | some (k, ':' :: cs3) =>
      match parseVal fuel cs3 with
      | some (v, r) =>
        (parseMembers fuel r).map (fun p => ((String.mk k, v) :: p.1, p.2))
      | none => none
    | _ => none
  | _ + 1, _ => none

end

/-- `JSON.parse`: parse one value with ample fuel and require the whole
input consumed; `none` models the thrown `SyntaxError`. -/
def jsonParse (s : String) : Option Json :=
  match parseVal (2 * s.data.length + 2) s.data with
  | some (j, []) => some j
  | _ => none

/-! ## JavaScript run-time values and the typed codec -/

/-- A JS run-time value of one of the types the codec supports.  Numbers are
modelled as exact integers plus `NaN`; composite values (`arr`, `obj`) carry
their JSON structure directly; `null` is the JS `null` (of `typeof`
`object`). -/
inductive JSValue where
  | undef
  | null
  | bool (b : Bool)
  | num (n : Int)
  | nan
  | str (s : String)
  | arr (elems : List Json)
  | obj (members : List (String × Json))
deriving Repr

/-- `typeof data`, the string written to the shadow slot. -/
def jsTypeof : JSValue → String
  | .undef => "undefined"
  | .null => "object"
  | .bool _ => "boolean"
  | .num _ => "number"
  | .nan => "number"
  | .str _ => "string"
  | .arr _ => "object"
  | .obj _ => "object"

/-- The payload string written to the primary slot:
`type === 'object' ? JSON.stringify(data) : String(data)`. -/
def encodePayload : JSValue → String
  | .undef => "undefined"
  | .null => "null"
  | .bool true => "true"
  | .bool false => "false"
  | .num n => String.mk (intToChars n)
  | .nan => "NaN"
  | .str s => s
  | .arr xs => String.mk (encChars (.arr xs))
  | .obj ms => String.mk (encChars (.obj ms))

/-- Well-formedness of a storable value: its JSON structure (if any) is in
the escape-free fragment the codec model covers. -/
def vwf : JSValue → Prop
  | .arr xs => jwf (.arr xs) = true
  | .obj ms => jwf (.obj ms) = true
  | _ => True

/-- The JS value `JSON.parse` yields for a parsed structure. -/
def jsonToValue : Json → JSValue
  | .null => .null
  | .bool b => .bool b
  | .num n => .num n
  | .str s => .str s
  | .arr xs => .arr xs
  | .obj ms => .obj ms

/-- `parseFloat(s)` restricted to the integer model: the longest
`-?digits` prefix, `NaN` when there is none. -/
def parseFloatJS (s : String) : JSValue :=
  match parseIntCs s.data with
  | some p => .num p.1
  | none => .nan

/-- A raw medium read seen as a JS value (the `default:` branch of `get`
returns the raw `data` unchanged). -/
def rawToValue : RawVal → JSValue
  | .undef => .undef
  | .null => .null
  | .str s => .str s

/-- Errors an operation can surface: the `TypeError` of a non-null assertion
on an absent medium, or the decode error thrown by `JSON.parse`. -/
inductive JSError where
  | typeError
  | decodeError
deriving DecidableEq, Repr

/-- The `switch (type)` dispatch of `get`, applied to the raw shadow-slot and
primary-slot reads.  `JSON.parse(data)` coerces a `null` argument to the
string `"null"` and throws on an `undefined` argument. -/
def decode (tag data : RawVal) : Except JSError JSValue :=
  match tag with
  | .str "object" =>
    match data with
    | .str ds =>
      match jsonParse ds with
      | some j => .ok (jsonToValue j)
      | none => .error .decodeError
    | .null => .ok .null
    | .undef => .error .decodeError
  | .str "number" =>
    .ok (match data with
      | .str ds => parseFloatJS ds
      | _ => .nan)
  | .str "boolean" => .ok (.bool (data == .str "true"))
  | .str "undefined" => .ok .undef
  | _ => .ok (rawToValue data)

/-! ## The session object and its operations -/

/-- One hook instance: the optionally-resolved medium plus the two
subscription lists held in refs. -/
structure Session where
  medium : Option Storage
  onList : List Sub
  onAnyList : List Nat

/-- `fireCallback(event, key)`: invoke every named subscription whose event
matches, in registration order, then every wildcard subscription. -/
def fireCallback (s : Session) (e : EventType) (k : Option String) : List Call :=
  (s.onList.filter (fun sub => sub.event == e)).map (fun sub => .named sub.id k)
    ++ s.onAnyList.map (fun i => .any i e k)

/-- `init(key, data)`: `storageType!.setItem` twice then fire `init`; the
non-null assertion throws a `TypeError` when the medium is absent. -/
def init (s : Session) (k : String) (v : JSValue) :
    Except JSError (Session × List Call) :=
  match s.medium with
  | none => .error .typeError
  | some st =>
    .ok ({ s with
            medium := some (setItem (setItem st k (encodePayload v))
              (shadowKey k) (jsTypeof v)) },
      fireCallback s .init (some k))

/-- `set(key, data)`: optional chaining skips the writes when the medium is
absent, and `set` still fires. -/
def set (s : Session) (k : String) (v : JSValue) : Session × List Call :=
  match s.medium with
  | none => (s, fireCallback s .set (some k))
  | some st =>
    ({ s with
        medium := some (setItem (setItem st k (encodePayload v))
          (shadowKey k) (jsTypeof v)) },
      fireCallback s .set (some k))

/-- `get(key)`: read both slots through the optional chain, fire `get`, then
dispatch on the tag.  The events component lists the invocations that have
happened by the time the outcome (value or thrown decode error) reaches the
caller. -/
def get (s : Session) (k : String) : Except JSError JSValue × List Call :=
  (decode (rawGet s.medium (shadowKey k)) (rawGet s.medium k),
    fireCallback s .get (some k))

/-- `remove(key)`: `storageType!.removeItem` on both slots then fire
`remove`; throws when the medium is absent. -/
def remove (s : Session) (k : String) : Except JSError (Session × List Call) :=
  match s.medium with
  | none => .error .typeError
  | some st =>
    .ok ({ s with medium := some (removeItem (removeItem st k) (shadowKey k)) },
      fireCallback s .remove (some k))

/-- `clear()`: `storageType!.clear()` then fire `clear` with no key; throws
when the medium is absent. -/
def clear (s : Session) : Except JSError (Session × List Call) :=
  match s.medium with
  | none => .error .typeError
  | some _ =>
    .ok ({ s with medium := some emptyStorage }, fireCallback s .clear none)

/-- `off(event, callback)` / `removeEventListener`: the source keeps exactly
the entries with `obj.event !== event && obj.callback !== callback`. -/
def off (l : List Sub) (e : EventType) (cb : Nat) : List Sub :=
  l.filter (fun sub => (!(sub.event == e)) && (!(sub.id == cb)))

/-- The `removeSelf` routine closed over by `on`/`addEventListener` for the
`once` self-removal and the abort-signal hook: it reassigns the list to the
entries with `obj.event !== event && obj.callback !== _callback`, where
`wrapped` is the identity of the (possibly wrapped) registered callback. -/
def removeSelf (l : List Sub) (e : EventType) (wrapped : Nat) : List Sub :=
  l.filter (fun sub => (!(sub.event == e)) && (!(sub.id == wrapped)))

/-- The exact-match removal the specification describes for `off`: drop the
first subscription whose event name and callback identity both match, leave
everything else, no-op when nothing matches both. -/
def specOff (l : List Sub) (e : EventType) (cb : Nat) : List Sub :=
  match l with
  | [] => []
  | sub :: rest =>
    if sub.event = e ∧ sub.id = cb then rest else sub :: specOff rest e cb

/-- Is a key of the shadow-slot shape `'$$' + mid + '_data'` for some middle
string?  This is the key naming convention of the storage format (literal
concatenation, any middle), used to state the pairing invariant. -/
def shadowMatch (k : String) : Bool :=
  match k.data with
  | '$' :: '$' :: rest =>
    decide (5 ≤ rest.length) && (rest.drop (rest.length - 5) == ['_', 'd', 'a', 't', 'a'])
  | _ => false

/-- What the JS regex `.` (no `s` flag) matches: any character except a line
terminator (LF, CR, LS U+2028, PS U+2029). -/
def jsDot (c : Char) : Bool :=
  !((c = '\n') || (c = '\r') || decide (c.toNat = 0x2028) || decide (c.toNat = 0x2029))

/-- Does a key match the guard regex `^(\$\$)(.*)(_data)$` with JavaScript
semantics?  `^`/`$` anchor the whole string (no `m` flag), `(\$\$)` is the
literal prefix, `(_data)` the literal suffix — forced to be the final five
characters by the end anchor — and `(.*)` is a run of characters that `.`
matches, i.e. free of line terminators. -/
def shadowRegexMatch (k : String) : Bool :=
  match k.data with
  | '$' :: '$' :: rest =>
    decide (5 ≤ rest.length) && (rest.drop (rest.length - 5) == ['_', 'd', 'a', 't', 'a'])
      && (rest.take (rest.length - 5)).all jsDot
  | _ => false

/-- The cross-tab translator `handleStorage`: `!key` drops both an absent and
an empty key, keys matching the guard regex are dropped, and the old/new
presence combination selects the event fired through `fireCallback`. -/
def handleStorage (s : Session) (key : Option String)
    (oldValue newValue : Option String) : List Call :=
  match key with
  | none => []
  | some k =>
    if k = "" || shadowRegexMatch k then []
    else
      match oldValue, newValue with
      | none, some _ => fireCallback s .init (some k)
      | some _, some _ => fireCallback s .set (some k)
      | some _, none => fireCallback s .remove (some k)
      | none, none => []

/-! ## Storage-level view of the mutating operations -/

/-- A mutating operation, for reasoning about operation sequences. -/
inductive Op where
  | init (k : String) (v : JSValue)
  | set (k : String) (v : JSValue)
  | remove (k : String)
  | clear

/-- The effect of one mutating operation on an Active session's medium
(the storage writes of `init`/`set`/`remove`/`clear`). -/
def applyOp (st : Storage) : Op → Storage
  | .init k v => setItem (setItem st k (encodePayload v)) (shadowKey k) (jsTypeof v)
  | .set k v => setItem (setItem st k (encodePayload v)) (shadowKey k) (jsTypeof v)
  | .remove k => removeItem (removeItem st k) (shadowKey k)
  | .clear => emptyStorage

/-- The medium after a sequence of mutating operations. -/
def applyOps (st : Storage) (ops : List Op) : Storage := ops.foldl applyOp st

/-- The shadow-slot pairing invariant, for keys that are not themselves
shadow-shaped: the primary slot exists iff the shadow slot exists. -/
def paired (st : Storage) : Prop :=
  ∀ k : String, shadowMatch k = false →
    ((getItem st k).isSome ↔ (getItem st (shadowKey k)).isSome)

/-- An operation whose argument key is not shadow-shaped. -/
def opOk : Op → Prop
  | .init k _ => shadowMatch k = false
  | .set k _ => shadowMatch k = false
  | .remove k => shadowMatch k = false
  | .clear => True

/-! ## Fuel measures for the parser correctness proof -/

mutual

/-- Fuel sufficient for `parseVal` to parse the serialization of a value. -/
def njson : Json → Nat
  | .null => 1
  | .bool _ => 1
  | .num _ => 1
  | .str _ => 1
  | .arr [] => 1
  | .arr (x :: xs) => 2 + njson x + nitems xs
  | .obj [] => 1
  | .obj (m :: ms) => 2 + njson m.2 + nmembers ms

/-- Fuel sufficient for `parseItems` on a serialized array tail. -/
def nitems : List Json → Nat
  | [] => 1
  | x :: xs => 1 + njson x + nitems xs

/-- Fuel sufficient for `parseMembers` on a serialized object tail. -/
def nmembers : List (String × Json) → Nat
  | [] => 1
  | m :: ms => 1 + njson m.2 + nmembers ms

end

/-- The remainder after a serialized number must not begin with a digit
(inside a serialization it begins with a separator or closer). -/
def restOk : List Char → Prop
  | [] => True
  | c :: _ => isDigitChar c = false

/-! ## Basic medium and shadow-key lemmas -/

theorem getItem_setItem_self (st : Storage) (k v : String) :
    getItem (setItem st k v) k = some v := by
  simp [getItem, setItem]

theorem getItem_setItem_ne (st : Storage) (k v x : String) (h : x ≠ k) :
    getItem (setItem st k v) x = getItem st x := by
  simp [getItem, setItem, h]

theorem getItem_removeItem_self (st : Storage) (k : String) :
    getItem (removeItem st k) k = none := by
  simp [getItem, removeItem]

theorem getItem_removeItem_ne (st : Storage) (k x : String) (h : x ≠ k) :
    getItem (removeItem st k) x = getItem st x := by
  simp [getItem, removeItem, h]

theorem getItem_empty (k : String) : getItem emptyStorage k = none := rfl

theorem shadowKey_data (k : String) :
    (shadowKey k).data = '$' :: '$' :: (k.data ++ ['_', 'd', 'a', 't', 'a']) := rfl

theorem string_eq_of_data_eq {a b : String} (h : a.data = b.data) : a = b := by
  obtain ⟨da⟩ := a
  obtain ⟨db⟩ := b
  exact congrArg String.mk h

theorem shadowKey_ne (k : String) : shadowKey k ≠ k := by
  intro h
  have hd := congrArg String.data h
  have hl := congrArg List.length hd
  simp [shadowKey_data] at hl
  omega

theorem shadowKey_inj {a b : String} (h : shadowKey a = shadowKey b) : a = b := by
  have hd := congrArg String.data h
  simp only [shadowKey_data, List.cons.injEq, true_and] at hd
  exact string_eq_of_data_eq (List.append_cancel_right hd)

theorem shadowMatch_shadowKey (k : String) : shadowMatch (shadowKey k) = true := by
  simp only [shadowMatch, shadowKey_data]
  have hlen : (k.data ++ ['_', 'd', 'a', 't', 'a']).length = k.data.length + 5 := by
    simp
  rw [hlen]
  have hdrop : (k.data ++ ['_', 'd', 'a', 't', 'a']).drop (k.data.length + 5 - 5)
      = ['_', 'd', 'a', 't', 'a'] := by
    rw [Nat.add_sub_cancel]
    exact List.drop_left k.data ['_', 'd', 'a', 't', 'a']
  rw [hdrop]
  simp

theorem ne_shadowKey_of_not_shadowMatch {x : String} (h : shadowMatch x = false)
    (k : String) : x ≠ shadowKey k := by
  intro e
  rw [e, shadowMatch_shadowKey k] at h
  cases h

/-! ## Decimal rendering and parsing of numbers -/

theorem digitToChar_isDigit (d : Nat) : isDigitChar (digitToChar d) = true := by
  unfold digitToChar
  split <;> decide

theorem digitToChar_toNat {d : Nat} (h : d < 10) : (digitToChar d).toNat = 48 + d := by
  interval_cases d <;> decide

theorem isDigitChar_ne {c x : Char} (hc : isDigitChar c = true)
    (hx : isDigitChar x = false) : c ≠ x := by
  intro e
  rw [e, hx] at hc
  cases hc

theorem readDigits_spec (ds : List Nat) :
    ∀ (acc : Nat) (rest : List Char), (∀ d ∈ ds, d < 10) → restOk rest →
      readDigits (ds.map digitToChar ++ rest) acc
        = (ds.foldl (fun a d => a * 10 + d) acc, rest) := by
  induction ds with
  | nil =>
    intro acc rest _ hrest
    cases rest with
    | nil => rfl
    | cons c cs =>
      simp only [List.map_nil, List.nil_append, readDigits]
      rw [restOk] at hrest
      simp [hrest]
  | cons d ds ih =>
    intro acc rest hds hrest
    simp only [List.map_cons, List.cons_append, readDigits, digitToChar_isDigit,
      if_true]
    rw [digitToChar_toNat (hds d (by simp)), Nat.add_sub_cancel_left]
    exact ih _ rest (fun x hx => hds x (by simp [hx])) hrest

theorem foldl_reverse_digits (ds : List Nat) :
    ∀ acc : Nat, ds.reverse.foldl (fun a d => a * 10 + d) acc
      = acc * 10 ^ ds.length + Nat.ofDigits 10 ds := by
  induction ds with
  | nil => intro acc; simp [Nat.ofDigits]
  | cons d ds ih =>
    intro acc
    simp only [List.reverse_cons, List.foldl_append, List.foldl_cons,
      List.foldl_nil, ih, Nat.ofDigits_cons, List.length_cons]
    ring

theorem parseNat_natToChars (n : Nat) (rest : List Char) (hrest : restOk rest) :
    parseNat (natToChars n ++ rest) = some (n, rest) := by
  by_cases h0 : n = 0
  · subst h0
    simp only [natToChars, if_pos rfl, List.cons_append, List.nil_append, parseNat]
    norm_num [isDigitChar]
    have := readDigits_spec [] 0 rest (by simp) hrest
    simpa using this
  · have hne : Nat.digits 10 n ≠ [] := Nat.digits_ne_nil_iff_ne_zero.2 h0
    have hlt : ∀ d ∈ (Nat.digits 10 n).reverse, d < 10 := by
      intro d hd
      exact Nat.digits_lt_base (by norm_num) (List.mem_reverse.1 hd)
    rcases hds : (Nat.digits 10 n).reverse with _ | ⟨d, ds⟩
    · exact absurd (by simpa using hds) hne
    · have hval : (d :: ds).foldl (fun a x => a * 10 + x) 0 = n := by
        have := foldl_reverse_digits (Nat.digits 10 n) 0
        rw [hds] at this
        simpa [Nat.ofDigits_digits] using this
      have hd10 : d < 10 := hlt d (by rw [hds]; simp)
      simp only [natToChars, if_neg h0, hds, List.map_cons, List.cons_append,
        parseNat, digitToChar_isDigit, if_true]
      rw [digitToChar_toNat hd10, Nat.add_sub_cancel_left]
      rw [readDigits_spec ds d rest
        (fun x hx => hlt x (by rw [hds]; simp [hx])) hrest]
      have hfold : ds.foldl (fun a x => a * 10 + x) d = n := by simpa using hval
      rw [hfold]

theorem natToChars_head (n : Nat) :
    ∃ c cs, natToChars n = c :: cs ∧ isDigitChar c = true := by
  by_cases h0 : n = 0
  · exact ⟨'0', [], by simp [natToChars, h0], by decide⟩
  · have hne : Nat.digits 10 n ≠ [] := Nat.digits_ne_nil_iff_ne_zero.2 h0
    rcases hds : (Nat.digits 10 n).reverse with _ | ⟨d, ds⟩
    · exact absurd (by simpa using hds) hne
    · exact ⟨digitToChar d, ds.map digitToChar,
        by simp [natToChars, h0, hds], digitToChar_isDigit d⟩

theorem parseIntCs_intToChars (n : Int) (rest : List Char) (hrest : restOk rest) :
    parseIntCs (intToChars n ++ rest) = some (n, rest) := by
  by_cases hneg : n < 0
  · have habs : -((n.natAbs : Int)) = n := by omega
    simp only [intToChars, if_pos hneg, List.cons_append, parseIntCs,
      parseNat_natToChars n.natAbs rest hrest]
    have hred : Option.map (fun p : Nat × List Char => (-(p.1 : Int), p.2))
        (some (n.natAbs, rest)) = some (-(n.natAbs : Int), rest) := rfl
    rw [hred, habs]
  · have htn : ((n.toNat : Int)) = n := by omega
    obtain ⟨c, cs, hc, hdig⟩ := natToChars_head n.toNat
    have hcd : c ≠ '-' := isDigitChar_ne hdig (by decide)
    simp only [intToChars, if_neg hneg, hc, List.cons_append]
    rw [parseIntCs]
    · rw [← List.cons_append, ← hc, parseNat_natToChars n.toNat rest hrest]
      have hred : Option.map (fun p : Nat × List Char => ((p.1 : Int), p.2))
          (some (n.toNat, rest)) = some ((n.toNat : Int), rest) := rfl
      rw [hred, htn]
    · intro r h
      injection h with h1 _
      exact hcd h1

/-! ## String literals -/

theorem plainChar_ne_quote {c : Char} (h : plainChar c = true) : c ≠ '"' := by
  simp only [plainChar, Bool.and_eq_true, bne_iff_ne, ne_eq] at h
  exact h.1.1

theorem readStr_enc (cs : List Char) :
    ∀ rest : List Char, (∀ c ∈ cs, plainChar c = true) →
      readStr (cs ++ '"' :: rest) = some (cs, rest) := by
  induction cs with
  | nil => intro rest _; rfl
  | cons c cs ih =>
    intro rest hall
    have hc : plainChar c = true := hall c (by simp)
    have hq : c ≠ '"' := plainChar_ne_quote hc
    simp only [List.cons_append, readStr, if_neg hq, hc, if_true, List.append_eq,
      ih rest (fun x hx => hall x (by simp [hx]))]
    rfl

/-! ## Serializations are nonempty and start with a distinctive character -/

theorem encChars_head (j : Json) :
    ∃ c l, encChars j = c :: l ∧ c ≠ ']' ∧ c ≠ '\x7d' := by
  cases j with
  | null => exact ⟨'n', _, rfl, by decide, by decide⟩
  | bool b => cases b with
    | true => exact ⟨'t', _, rfl, by decide, by decide⟩
    | false => exact ⟨'f', _, rfl, by decide, by decide⟩
  | num n =>
    by_cases hneg : n < 0
    · exact ⟨'-', natToChars n.natAbs, by simp [encChars, intToChars, hneg],
        by decide, by decide⟩
    · obtain ⟨c, cs, hc, hdig⟩ := natToChars_head n.toNat
      exact ⟨c, cs, by simp [encChars, intToChars, hneg, hc],
        isDigitChar_ne hdig (by decide), isDigitChar_ne hdig (by decide)⟩
  | str s => exact ⟨'"', _, rfl, by decide, by decide⟩
  | arr xs => cases xs with
    | nil => exact ⟨'[', _, rfl, by decide, by decide⟩
    | cons x xs => exact ⟨'[', _, rfl, by decide, by decide⟩
  | obj ms => cases ms with
    | nil => exact ⟨'\x7b', _, rfl, by decide, by decide⟩
    | cons m ms => exact ⟨'\x7b', _, rfl, by decide, by decide⟩

theorem restOk_encItems (xs : List Json) (rest : List Char) :
    restOk (encItems xs ++ rest) := by
  cases xs with
  | nil => exact (by decide : isDigitChar ']' = false)
  | cons x xs => exact (by decide : isDigitChar ',' = false)

theorem restOk_encMembers (ms : List (String × Json)) (rest : List Char) :
    restOk (encMembers ms ++ rest) := by
  cases ms with
  | nil => exact (by decide : isDigitChar '\x7d' = false)
  | cons m ms => exact (by decide : isDigitChar ',' = false)

/-! ## Reduction lemmas for `parseVal` on serialized input -/

theorem parseVal_num_head (f : Nat) (c : Char) (cs : List Char)
    (h : c = '-' ∨ isDigitChar c = true) :
    parseVal (f + 1) (c :: cs)
      = (parseIntCs (c :: cs)).map (fun p => (Json.num p.1, p.2)) := by
  have hne : ∀ x : Char, isDigitChar x = false → x ≠ '-' → c ≠ x := by
    intro x hx hm e
    rcases h with rfl | h
    · exact hm e.symm
    · exact isDigitChar_ne h hx e
  rw [parseVal, if_neg (hne 'n' (by decide) (by decide)),
    if_neg (hne 't' (by decide) (by decide)),
    if_neg (hne 'f' (by decide) (by decide)),
    if_neg (hne '"' (by decide) (by decide)),
    if_neg (hne '[' (by decide) (by decide)),
    if_neg (hne '\x7b' (by decide) (by decide))]
  have hcond : (decide (c = '-') || isDigitChar c) = true := by
    rcases h with rfl | h
    · simp
    · simp [h]
  rw [if_pos hcond]

theorem parseVal_arr_cons (f : Nat) (ch : Char) (l : List Char) (hch : ch ≠ ']') :
    parseVal (f + 2) ('[' :: ch :: l)
      = match parseVal f (ch :: l) with
        | some (j, r) => (parseItems f r).map (fun p => (Json.arr (j :: p.1), p.2))
        | none => none := by
  rw [parseVal, if_neg (by decide : ¬ ('[' = 'n')), if_neg (by decide : ¬ ('[' = 't')),
    if_neg (by decide : ¬ ('[' = 'f')), if_neg (by decide : ¬ ('[' = '"')),
    if_pos rfl, parseArrBody]
  intro r h
  injection h with h1 _
  exact hch h1

theorem parseVal_obj_cons (f : Nat) (l : List Char) :
    parseVal (f + 2) ('\x7b' :: '"' :: l)
      = match readStr l with
        | some (k, ':' :: cs3) =>
          match parseVal f cs3 with
          | some (v, r) =>
            (parseMembers f r).map (fun p => (Json.obj ((String.mk k, v) :: p.1), p.2))
          | none => none
        | _ => none := by
  rw [parseVal, if_neg (by decide : ¬ ('\x7b' = 'n')),
    if_neg (by decide : ¬ ('\x7b' = 't')), if_neg (by decide : ¬ ('\x7b' = 'f')),
    if_neg (by decide : ¬ ('\x7b' = '"')), if_neg (by decide : ¬ ('\x7b' = '[')),
    if_pos rfl, parseObjBody]

/-! ## The parser inverts the serializer -/

theorem parseItems_enc (xs : List Json)
    (hall : ∀ x ∈ xs, jwf x = true → ∀ (f : Nat) (rest : List Char),
      njson x ≤ f → restOk rest → parseVal f (encChars x ++ rest) = some (x, rest)) :
    jwfList xs = true → ∀ (f : Nat) (rest : List Char), nitems xs ≤ f →
      parseItems f (encItems xs ++ rest) = some (xs, rest) := by
  induction xs with
  | nil =>
    intro _ f rest hf
    cases f with
    | zero => simp [nitems] at hf
    | succ f => rfl
  | cons x xs ih =>
    intro hwf f rest hf
    cases f with
    | zero => simp [nitems] at hf
    | succ f =>
      simp only [jwfList, Bool.and_eq_true] at hwf
      simp only [nitems] at hf
      have h1 := hall x (by simp) hwf.1 f (encItems xs ++ rest) (by omega)
        (restOk_encItems xs rest)
      have h2 := ih (fun y hy => hall y (by simp [hy])) hwf.2 f rest (by omega)
      simp only [encItems, List.cons_append, List.append_eq, List.append_assoc,
        parseItems, h1, h2]
      rfl

theorem parseMembers_enc (ms : List (String × Json))
    (hall : ∀ m ∈ ms, jwf m.2 = true → ∀ (f : Nat) (rest : List Char),
      njson m.2 ≤ f → restOk rest →
        parseVal f (encChars m.2 ++ rest) = some (m.2, rest)) :
    jwfMembers ms = true → ∀ (f : Nat) (rest : List Char), nmembers ms ≤ f →
      parseMembers f (encMembers ms ++ rest) = some (ms, rest) := by
  induction ms with
  | nil =>
    intro _ f rest hf
    cases f with
    | zero => simp [nmembers] at hf
    | succ f => rfl
  | cons m ms ih =>
    intro hwf f rest hf
    cases f with
    | zero => simp [nmembers] at hf
    | succ f =>
      obtain ⟨k, v⟩ := m
      simp only [jwfMembers, Bool.and_eq_true] at hwf
      simp only [nmembers] at hf
      have hkey := readStr_enc k.data
        (':' :: (encChars v ++ (encMembers ms ++ rest)))
        (by
          have := hwf.1.1
          simp only [strPlain, List.all_eq_true] at this
          exact fun c hc => this c hc)
      have h1 := hall (k, v) (by simp) hwf.1.2 f (encMembers ms ++ rest)
        (by show njson v ≤ f; omega) (restOk_encMembers ms rest)
      have h1' : parseVal f (encChars v ++ (encMembers ms ++ rest))
          = some (v, encMembers ms ++ rest) := h1
      have h2 := ih (fun y hy => hall y (by simp [hy])) hwf.2 f rest (by omega)
      simp only [encMembers, encMember, List.cons_append, List.append_eq,
        List.append_assoc, List.nil_append, parseMembers, hkey, h1', h2]
      rfl

theorem parseVal_enc :
    ∀ (n : Nat) (j : Json), sizeOf j ≤ n → jwf j = true →
      ∀ (f : Nat) (rest : List Char), njson j ≤ f → restOk rest →
        parseVal f (encChars j ++ rest) = some (j, rest) := by
  intro n
  induction n with
  | zero =>
    intro j hsz
    exact absurd hsz (by cases j <;> simp)
  | succ n ih =>
    intro j hsz hwf f rest hf hrest
    cases j with
    | null =>
      cases f with
      | zero => simp [njson] at hf
      | succ f => rfl
    | bool b =>
      cases f with
      | zero => simp [njson] at hf
      | succ f => cases b <;> rfl
    | num m =>
      cases f with
      | zero => simp [njson] at hf
      | succ f =>
        have hint := parseIntCs_intToChars m rest hrest
        by_cases hm : m < 0
        · simp only [intToChars, if_pos hm, List.cons_append] at hint
          have hrw : encChars (Json.num m) ++ rest
              = '-' :: (natToChars m.natAbs ++ rest) := by
            simp [encChars, intToChars, hm]
          rw [hrw, parseVal_num_head f '-' (natToChars m.natAbs ++ rest)
            (Or.inl rfl), hint]
          rfl
        · obtain ⟨c, cs, hc, hdig⟩ := natToChars_head m.toNat
          simp only [intToChars, if_neg hm, hc, List.cons_append] at hint
          have hrw : encChars (Json.num m) ++ rest = c :: (cs ++ rest) := by
            simp [encChars, intToChars, hm, hc]
          rw [hrw, parseVal_num_head f c (cs ++ rest) (Or.inr hdig), hint]
          rfl
    | str s =>
      cases f with
      | zero => simp [njson] at hf
      | succ f =>
        have hplain : ∀ c ∈ s.data, plainChar c = true := by
          have := hwf
          simp only [jwf, strPlain, List.all_eq_true] at this
          exact fun c hc => this c hc
        have hread := readStr_enc s.data rest hplain
        show (readStr ((s.data ++ ['"']) ++ rest)).map
          (fun p => (Json.str (String.mk p.1), p.2)) = some (.str s, rest)
        rw [List.append_assoc, List.singleton_append, hread]
        rfl
    | arr xs =>
      cases xs with
      | nil =>
        cases f with
        | zero => simp [njson] at hf
        | succ f =>
          show parseArrBody f (']' :: rest) = some (Json.arr [], rest)
          cases f <;> rfl
      | cons x xs =>
        simp only [njson] at hf
        obtain ⟨f, rfl⟩ : ∃ f', f = f' + 2 := ⟨f - 2, by omega⟩
        have hszx : sizeOf x ≤ n := by
          have := hsz
          simp only [Json.arr.sizeOf_spec, List.cons.sizeOf_spec] at this
          omega
        have hszxs : ∀ y ∈ xs, sizeOf y ≤ n := by
          intro y hy
          have h1 := List.sizeOf_lt_of_mem hy
          have := hsz
          simp only [Json.arr.sizeOf_spec, List.cons.sizeOf_spec] at this
          omega
        simp only [jwf, jwfList, Bool.and_eq_true] at hwf
        obtain ⟨ch, l, hx, hne, _⟩ := encChars_head x
        have hrw : encChars (Json.arr (x :: xs)) ++ rest
            = '[' :: ch :: (l ++ (encItems xs ++ rest)) := by
          simp [encChars, hx]
        rw [hrw, parseVal_arr_cons f ch (l ++ (encItems xs ++ rest)) hne]
        have h1 : parseVal f (encChars x ++ (encItems xs ++ rest))
            = some (x, encItems xs ++ rest) :=
          ih x hszx hwf.1 f (encItems xs ++ rest) (by omega)
            (restOk_encItems xs rest)
        rw [hx, List.cons_append] at h1
        rw [h1]
        have h2 := parseItems_enc xs
          (fun y hy hwy f' r' hn hr => ih y (hszxs y hy) hwy f' r' hn hr)
          hwf.2 f rest (by omega)
        simp only [h2]
        rfl
    | obj ms =>
      cases ms with
      | nil =>
        cases f with
        | zero => simp [njson] at hf
        | succ f =>
          show parseObjBody f ('\x7d' :: rest) = some (Json.obj [], rest)
          cases f <;> rfl
      | cons m ms =>
        obtain ⟨k, v⟩ := m
        simp only [njson] at hf
        obtain ⟨f, rfl⟩ : ∃ f', f = f' + 2 := ⟨f - 2, by omega⟩
        have hszv : sizeOf v ≤ n := by
          have := hsz
          simp only [Json.obj.sizeOf_spec, List.cons.sizeOf_spec,
            Prod.mk.sizeOf_spec] at this
          omega
        have hszms : ∀ y ∈ ms, sizeOf y.2 ≤ n := by
          intro y hy
          have h1 := List.sizeOf_lt_of_mem hy
          have h2 : sizeOf y.2 < sizeOf y := by
            obtain ⟨a, b⟩ := y
            simp only [Prod.mk.sizeOf_spec]
            omega
          have := hsz
          simp only [Json.obj.sizeOf_spec, List.cons.sizeOf_spec] at this
          omega
        simp only [jwf, jwfMembers, Bool.and_eq_true] at hwf
        have hrw : encChars (Json.obj ((k, v) :: ms)) ++ rest
            = '\x7b' :: '"' :: (k.data ++ ('"' :: ':'
                :: (encChars v ++ (encMembers ms ++ rest)))) := by
          simp [encChars, encMember]
        rw [hrw, parseVal_obj_cons f]
        have hkey := readStr_enc k.data
          (':' :: (encChars v ++ (encMembers ms ++ rest)))
          (by
            have := hwf.1.1
            simp only [strPlain, List.all_eq_true] at this
            exact fun c hc => this c hc)
        rw [hkey]
        have h1 : parseVal f (encChars v ++ (encMembers ms ++ rest))
            = some (v, encMembers ms ++ rest) :=
          ih v hszv hwf.1.2 f (encMembers ms ++ rest) (by omega)
            (restOk_encMembers ms rest)
        simp only [h1]
        have h2 := parseMembers_enc ms
          (fun y hy hwy f' r' hn hr => ih y.2 (hszms y hy) hwy f' r' hn hr)
          hwf.2 f rest (by omega)
        simp only [h2]
        rfl

theorem intToChars_ne_nil (n : Int) : intToChars n ≠ [] := by
  by_cases hm : n < 0
  · simp [intToChars, hm]
  · obtain ⟨c, cs, hc, _⟩ := natToChars_head n.toNat
    simp [intToChars, hm, hc]

theorem nitems_le (xs : List Json)
    (h : ∀ x ∈ xs, njson x ≤ 2 * (encChars x).length) :
    nitems xs ≤ 2 * (encItems xs).length := by
  induction xs with
  | nil => simp [nitems, encItems]
  | cons x xs ih =>
    have hx := h x (by simp)
    have hxs := ih (fun y hy => h y (by simp [hy]))
    simp only [nitems, encItems, List.length_cons, List.length_append]
    omega

theorem nmembers_le (ms : List (String × Json))
    (h : ∀ m ∈ ms, njson m.2 ≤ 2 * (encChars m.2).length) :
    nmembers ms ≤ 2 * (encMembers ms).length := by
  induction ms with
  | nil => simp [nmembers, encMembers]
  | cons m ms ih =>
    have hm := h m (by simp)
    have hms := ih (fun y hy => h y (by simp [hy]))
    obtain ⟨k, v⟩ := m
    simp only [nmembers, encMembers, encMember, List.length_cons,
      List.length_append] at hm hms ⊢
    omega

theorem njson_le :
    ∀ (n : Nat) (j : Json), sizeOf j ≤ n → njson j ≤ 2 * (encChars j).length := by
  intro n
  induction n with
  | zero =>
    intro j hsz
    exact absurd hsz (by cases j <;> simp)
  | succ n ih =>
    intro j hsz
    cases j with
    | null => simp [njson, encChars]
    | bool b => cases b <;> simp [njson, encChars]
    | num m =>
      have := intToChars_ne_nil m
      have hlen : 1 ≤ (intToChars m).length := by
        cases hi : intToChars m with
        | nil => exact absurd hi this
        | cons c cs => simp
      simp only [njson, encChars]
      omega
    | str s =>
      simp only [njson, encChars, List.length_cons, List.length_append]
      omega
    | arr xs =>
      cases xs with
      | nil => simp [njson, encChars]
      | cons x xs =>
        have hszx : sizeOf x ≤ n := by
          have := hsz
          simp only [Json.arr.sizeOf_spec, List.cons.sizeOf_spec] at this
          omega
        have hszxs : ∀ y ∈ xs, sizeOf y ≤ n := by
          intro y hy
          have h1 := List.sizeOf_lt_of_mem hy
          have := hsz
          simp only [Json.arr.sizeOf_spec, List.cons.sizeOf_spec] at this
          omega
        have h1 := ih x hszx
        have h2 := nitems_le xs (fun y hy => ih y (hszxs y hy))
        simp only [njson, encChars, List.length_cons, List.length_append]
        omega
    | obj ms =>
      cases ms with
      | nil => simp [njson, encChars]
      | cons m ms =>
        obtain ⟨k, v⟩ := m
        have hszv : sizeOf v ≤ n := by
          have := hsz
          simp only [Json.obj.sizeOf_spec, List.cons.sizeOf_spec,
            Prod.mk.sizeOf_spec] at this
          omega
        have hszms : ∀ y ∈ ms, sizeOf y.2 ≤ n := by
          intro y hy
          have h1 := List.sizeOf_lt_of_mem hy
          have h2 : sizeOf y.2 < sizeOf y := by
            obtain ⟨a, b⟩ := y
            simp only [Prod.mk.sizeOf_spec]
            omega
          have := hsz
          simp only [Json.obj.sizeOf_spec, List.cons.sizeOf_spec] at this
          omega
        have h1 := ih v hszv
        have h2 := nmembers_le ms (fun y hy => ih y.2 (hszms y hy))
        simp only [njson, encChars, encMember, List.length_cons,
          List.length_append]
        omega

/-- `JSON.parse` inverts `JSON.stringify` on well-formed structures. -/
theorem jsonParse_enc (j : Json) (hwf : jwf j = true) :
    jsonParse (String.mk (encChars j)) = some j := by
  have hb : njson j ≤ 2 * (encChars j).length + 2 := by
    have := njson_le (sizeOf j) j le_rfl
    omega
  have h := parseVal_enc (sizeOf j) j le_rfl hwf (2 * (encChars j).length + 2)
    [] hb trivial
  rw [List.append_nil] at h
  unfold jsonParse
  rw [show (String.mk (encChars j)).data = encChars j from rfl, h]

/-- The typed decode dispatch inverts the typed encode: reading back a
stored tag/payload pair reproduces the original value. -/
theorem decode_encode (v : JSValue) (hwf : vwf v) :
    decode (.str (jsTypeof v)) (.str (encodePayload v)) = .ok v := by
  cases v with
  | undef => rfl
  | null => rfl
  | bool b => cases b <;> rfl
  | nan => rfl
  | str s => rfl
  | num n =>
    have h := parseIntCs_intToChars n [] trivial
    rw [List.append_nil] at h
    show Except.ok (parseFloatJS (String.mk (intToChars n)))
      = Except.ok (JSValue.num n)
    rw [show parseFloatJS (String.mk (intToChars n))
      = (match parseIntCs (intToChars n) with
          | some p => JSValue.num p.1
          | none => JSValue.nan) from rfl, h]
  | arr xs =>
    show (match jsonParse (String.mk (encChars (Json.arr xs))) with
      | some j => Except.ok (jsonToValue j)
      | none => Except.error JSError.decodeError) = Except.ok (JSValue.arr xs)
    rw [jsonParse_enc (Json.arr xs) hwf]
    rfl
  | obj ms =>
    show (match jsonParse (String.mk (encChars (Json.obj ms))) with
      | some j => Except.ok (jsonToValue j)
      | none => Except.error JSError.decodeError) = Except.ok (JSValue.obj ms)
    rw [jsonParse_enc (Json.obj ms) hwf]
    rfl

/-! ## Claim C1: round-trip with type fidelity -/

/-- C1: on an Active session, for every key and every supported value in
the model domain (strings; exact-integer numbers and `NaN`; booleans; JSON
structures over plain strings; `null`; `undefined`), `get(key)` after
`set(key, value)` or after `init(key, value)` returns exactly the stored
value with its run-time type preserved. -/
theorem c1_roundtrip (s : Session) (st : Storage) (k : String) (v : JSValue)
    (hmed : s.medium = some st) (hwf : vwf v) :
    (get (set s k v).1 k).1 = Except.ok v ∧
    init s k v = Except.ok ({ s with medium := some (applyOp st (Op.init k v)) },
      fireCallback s .init (some k)) ∧
    (get { s with medium := some (applyOp st (Op.init k v)) } k).1
      = Except.ok v := by
  have hk2 : k ≠ shadowKey k := fun e => shadowKey_ne k e.symm
  have hcore : ∀ (l : List Sub) (a : List Nat),
      (get ⟨some (setItem (setItem st k (encodePayload v)) (shadowKey k)
        (jsTypeof v)), l, a⟩ k).1 = Except.ok v := by
    intro l a
    have htag : rawGet (some (setItem (setItem st k (encodePayload v))
        (shadowKey k) (jsTypeof v))) (shadowKey k) = .str (jsTypeof v) := by
      simp [rawGet, getItem_setItem_self]
    have hdata : rawGet (some (setItem (setItem st k (encodePayload v))
        (shadowKey k) (jsTypeof v))) k = .str (encodePayload v) := by
      simp [rawGet, getItem_setItem_ne _ _ _ _ hk2, getItem_setItem_self]
    simp only [get]
    rw [htag, hdata]
    exact decode_encode v hwf
  refine ⟨?_, ?_, ?_⟩
  · have hs : (set s k v).1 = { s with medium := some (setItem
        (setItem st k (encodePayload v)) (shadowKey k) (jsTypeof v)) } := by
      simp [set, hmed]
    rw [hs]
    exact hcore s.onList s.onAnyList
  · simp [init, hmed, applyOp]
  · exact hcore s.onList s.onAnyList

theorem c1_roundtrip_witness :
    (get (set ⟨some emptyStorage, [], []⟩ "k"
        (.obj [("a", .num 1), ("b", .arr [.null, .bool true, .str "hi"])])).1
      "k").1
      = Except.ok (.obj [("a", .num 1),
          ("b", .arr [.null, .bool true, .str "hi"])]) :=
  (c1_roundtrip ⟨some emptyStorage, [], []⟩ emptyStorage "k"
    (.obj [("a", .num 1), ("b", .arr [.null, .bool true, .str "hi"])])
    rfl rfl).1

/-! ## Claim C9: the `removeSelf` filter removes every subscription for the
event name -/

/-- C9: the self-removal routine installed by `on(event, cb, {once: true})`
(also the abort-signal hook) filters with
`obj.event !== event && obj.callback !== _callback`, so when it runs it
removes every named subscription registered for that event name, not only
the targeted one. -/
theorem c9_removeSelf_removes_whole_event (l : List Sub) (e : EventType)
    (wrapped : Nat) (sub : Sub) (hmem : sub ∈ l) (hev : sub.event = e) :
    sub ∉ removeSelf l e wrapped := by
  intro hin
  rw [removeSelf, List.mem_filter] at hin
  simp [hev] at hin

theorem c9_removeSelf_removes_whole_event_witness :
    Sub.mk .set 5 ∉ removeSelf [Sub.mk .set 5] .set 9 :=
  c9_removeSelf_removes_whole_event [Sub.mk .set 5] .set 9 (Sub.mk .set 5)
    (by simp) rfl

/-! ## Claim C2: `off` removes more than the exact match (code bug) -/

/-- C2 (failing input): with two subscriptions to the same event,
`off(event, cb1)` empties the list — the filter keeps only entries differing
in BOTH event and callback — so the second subscriber no longer fires,
while the exact-match removal the spec (and the `off` doc comment) describe
would keep it.  The third conjunct evaluates a subsequent fire of the event:
no callback is invoked. -/
theorem c2_off_removes_both_subscribers :
    off [Sub.mk .set 1, Sub.mk .set 2] .set 1 = [] ∧
    specOff [Sub.mk .set 1, Sub.mk .set 2] .set 1 = [Sub.mk .set 2] ∧
    fireCallback ⟨none, off [Sub.mk .set 1, Sub.mk .set 2] .set 1, []⟩
      .set (some "k") = [] := by
  refine ⟨rfl, ?_, rfl⟩
  simp [specOff]

/-! ## Claim C3: behavior when the storage medium is absent -/

/-- C3 (counterexample): on a session with no medium, `remove` throws a
`TypeError` (the claim says it skips the storage call, fires `remove`, and
returns normally), `clear` likewise, and `get` returns the absence value
without failing (the claim says `get` fails). -/
theorem c3_absent_medium_counterexample :
    remove ⟨none, [], []⟩ "k" = .error .typeError ∧
    clear ⟨none, [], []⟩ = .error .typeError ∧
    (get ⟨none, [], []⟩ "k").1 = .ok .undef :=
  ⟨rfl, rfl, rfl⟩

/-- C3 (amended): when the storage medium is absent, `set` skips the writes
but still fires `set` and returns normally; `get` skips the reads, fires
`get`, and returns `undefined` rather than failing; `init`, `remove` and
`clear` throw a `TypeError` from the non-null assertion (and fire nothing). -/
theorem c3_absent_medium_amended (s : Session) (k : String) (v : JSValue)
    (h : s.medium = none) :
    set s k v = (s, fireCallback s .set (some k)) ∧
    get s k = (.ok .undef, fireCallback s .get (some k)) ∧
    init s k v = .error .typeError ∧
    remove s k = .error .typeError ∧
    clear s = .error .typeError := by
  refine ⟨?_, ?_, ?_, ?_, ?_⟩ <;>
    simp [set, get, init, remove, clear, h, rawGet, decode, rawToValue]

theorem c3_absent_medium_amended_witness :
    set ⟨none, [Sub.mk .set 1], []⟩ "k" .null
      = (⟨none, [Sub.mk .set 1], []⟩,
          fireCallback ⟨none, [Sub.mk .set 1], []⟩ .set (some "k")) ∧
    get ⟨none, [Sub.mk .set 1], []⟩ "k"
      = (.ok .undef, fireCallback ⟨none, [Sub.mk .set 1], []⟩ .get (some "k")) ∧
    init ⟨none, [Sub.mk .set 1], []⟩ "k" .null = .error .typeError ∧
    remove ⟨none, [Sub.mk .set 1], []⟩ "k" = .error .typeError ∧
    clear ⟨none, [Sub.mk .set 1], []⟩ = .error .typeError :=
  c3_absent_medium_amended ⟨none, [Sub.mk .set 1], []⟩ "k" .null rfl

/-! ## Claim C4: reading a key that was never written -/

/-- C4 (counterexample): on an Active session with empty storage,
`get('absent')` returns the JS `null` that `getItem` produced for the
missing payload — not the `undefined` absence sentinel the claim names. -/
theorem c4_missing_key_counterexample :
    (get ⟨some emptyStorage, [], []⟩ "absent").1 = .ok .null ∧
    JSValue.null ≠ JSValue.undef :=
  ⟨rfl, fun h => JSValue.noConfusion h⟩

/-- C4 (amended): when both slots are absent, `get` returns `null` (the raw
missing-payload value, an absence value but not `undefined`) without
throwing; when only the type-tag slot is absent but a payload exists, `get`
returns the raw payload string unchanged. -/
theorem c4_missing_key_amended (st : Storage) (l : List Sub) (a : List Nat)
    (k : String) (htag : getItem st (shadowKey k) = none) :
    (getItem st k = none → (get ⟨some st, l, a⟩ k).1 = .ok .null) ∧
    (∀ p : String, getItem st k = some p →
      (get ⟨some st, l, a⟩ k).1 = .ok (.str p)) := by
  constructor
  · intro hdata
    simp [get, rawGet, htag, hdata, decode, rawToValue]
  · intro p hdata
    simp [get, rawGet, htag, hdata, decode, rawToValue]

theorem c4_missing_key_amended_witness :
    (get ⟨some (setItem emptyStorage "x" "payload"), [], []⟩ "x").1
      = .ok (.str "payload") :=
  (c4_missing_key_amended (setItem emptyStorage "x" "payload") [] [] "x"
    rfl).2 "payload" rfl

/-! ## Claim C5: an unparseable `object`-tagged payload raises a decode
error -/

/-- C5: when the shadow slot holds `object` and the primary payload is not
parseable JSON, `get` surfaces the decode error to its caller — the outcome
of `get` is the error, not a recovered or default value. -/
theorem c5_object_tag_decode_error (st : Storage) (l : List Sub) (a : List Nat)
    (k p : String) (htag : getItem st (shadowKey k) = some "object")
    (hdata : getItem st k = some p) (hbad : jsonParse p = none) :
    (get ⟨some st, l, a⟩ k).1 = .error .decodeError := by
  simp [get, rawGet, htag, hdata, decode, hbad]

theorem c5_object_tag_decode_error_witness :
    (get ⟨some (setItem (setItem emptyStorage "x" "nope")
      (shadowKey "x") "object"), [], []⟩ "x").1 = .error .decodeError :=
  c5_object_tag_decode_error _ [] [] "x" "nope" rfl rfl rfl

/-! ## Claim C6: the shadow-slot pairing invariant -/

/-- C6 (counterexample): a single legitimate `set('y', 'v')` from empty
storage already breaks the pairing invariant quantified over EVERY key: for
the key `'$$y_data'` (the freshly written shadow slot of `'y'`), the primary
slot exists but its own shadow slot `'$$$$y_data_data'` does not. -/
theorem c6_pairing_counterexample :
    (getItem (applyOps emptyStorage [.set "y" (.str "v")])
      (shadowKey "y")).isSome = true ∧
    (getItem (applyOps emptyStorage [.set "y" (.str "v")])
      (shadowKey (shadowKey "y"))).isSome = false := by
  constructor <;> rfl

/-- Preservation of the restricted pairing invariant by a paired write of
the primary and shadow slots of a non-shadow key. -/
theorem paired_write {st : Storage} (hp : paired st) {k : String}
    (hk : shadowMatch k = false) (p t : String) :
    paired (setItem (setItem st k p) (shadowKey k) t) := by
  intro x hx
  by_cases hxk : x = k
  · subst hxk
    rw [getItem_setItem_ne _ _ _ _ (ne_shadowKey_of_not_shadowMatch hx x),
      getItem_setItem_self, getItem_setItem_self]
    simp
  · have hxs : x ≠ shadowKey k := ne_shadowKey_of_not_shadowMatch hx k
    have hsx : shadowKey x ≠ shadowKey k := fun e => hxk (shadowKey_inj e)
    have hsk : shadowKey x ≠ k := (ne_shadowKey_of_not_shadowMatch hk x).symm
    rw [getItem_setItem_ne _ _ _ _ hxs, getItem_setItem_ne _ _ _ _ hxk,
      getItem_setItem_ne _ _ _ _ hsx, getItem_setItem_ne _ _ _ _ hsk]
    exact hp x hx

/-- Preservation of the restricted pairing invariant by the paired removal
of the primary and shadow slots of a non-shadow key. -/
theorem paired_remove {st : Storage} (hp : paired st) {k : String}
    (hk : shadowMatch k = false) :
    paired (removeItem (removeItem st k) (shadowKey k)) := by
  intro x hx
  by_cases hxk : x = k
  · subst hxk
    rw [getItem_removeItem_ne _ _ _ (ne_shadowKey_of_not_shadowMatch hx x),
      getItem_removeItem_self, getItem_removeItem_self]
  · have hxs : x ≠ shadowKey k := ne_shadowKey_of_not_shadowMatch hx k
    have hsx : shadowKey x ≠ shadowKey k := fun e => hxk (shadowKey_inj e)
    have hsk : shadowKey x ≠ k := (ne_shadowKey_of_not_shadowMatch hk x).symm
    rw [getItem_removeItem_ne _ _ _ hxs, getItem_removeItem_ne _ _ _ hxk,
      getItem_removeItem_ne _ _ _ hsx, getItem_removeItem_ne _ _ _ hsk]
    exact hp x hx

/-- C6 (amended): starting from any medium satisfying the pairing invariant
on non-shadow keys (in particular the empty medium), after any sequence of
`init`/`set`/`remove`/`clear` operations whose argument keys are not
themselves shadow-shaped, the invariant still holds for every non-shadow
key: the primary slot exists iff the shadow slot exists (so after
`remove(key)` both are absent, and after `clear()` nothing remains). -/
theorem c6_pairing_amended (ops : List Op) :
    ∀ st : Storage, paired st → (∀ op ∈ ops, opOk op) →
      paired (applyOps st ops) := by
  induction ops with
  | nil => exact fun st hp _ => hp
  | cons op ops ih =>
    intro st hp hok
    have hstep : paired (applyOp st op) := by
      cases op with
      | init k v =>
        exact paired_write hp (hok (Op.init k v) (List.mem_cons_self _ _)) _ _
      | set k v =>
        exact paired_write hp (hok (Op.set k v) (List.mem_cons_self _ _)) _ _
      | remove k =>
        exact paired_remove hp (hok (Op.remove k) (List.mem_cons_self _ _))
      | clear => intro x hx; simp [applyOp, getItem, emptyStorage]
    exact ih (applyOp st op) hstep (fun o ho => hok o (by simp [ho]))

theorem c6_pairing_amended_witness :
    paired (applyOps emptyStorage
      [.init "k" (.str "v"), .set "k" (.num 2), .remove "k", .clear]) :=
  c6_pairing_amended [.init "k" (.str "v"), .set "k" (.num 2), .remove "k", .clear]
    emptyStorage (fun x _ => by simp [getItem, emptyStorage])
    (by intro op hop; fin_cases hop <;> simp [opOk] <;> rfl)

/-! ## Claim C10: `get` fires its event before decoding -/

/-- C10: the `get` event fires before decoding, so even when decode fails
the invocation list delivered by the operation is the full
`fireCallback('get', key)` sweep: every `get` subscriber and every wildcard
subscriber was invoked with the key by the time the error reaches the
caller. -/
theorem c10_get_fires_before_decode (s : Session) (k : String) (e : JSError)
    (herr : (get s k).1 = .error e) :
    (get s k).2 = fireCallback s .get (some k) ∧
    (∀ sub ∈ s.onList, sub.event = .get → .named sub.id (some k) ∈ (get s k).2) ∧
    (∀ i ∈ s.onAnyList, .any i .get (some k) ∈ (get s k).2) := by
  refine ⟨rfl, ?_, ?_⟩
  · intro sub hmem hev
    simp only [get, fireCallback, List.mem_append, List.mem_map]
    exact Or.inl ⟨sub, List.mem_filter.2 ⟨hmem, by simp [hev]⟩, rfl⟩
  · intro i hmem
    simp only [get, fireCallback, List.mem_append, List.mem_map]
    exact Or.inr ⟨i, hmem, rfl⟩

/-! ## Claim C7: cross-tab change classification -/

/-- C7 (counterexample): two notifications on which the claim fails.  A
notification whose key is the empty string is dropped by the `!key` guard
even though the key is present and not shadow-shaped — the claim prescribes
an `init` fire, which the registered subscriber would have received (second
conjunct).  And a notification whose key is `'$$a\nb_data'` — which is
`'$$' + anything + '_data'`, so the claim says nothing fires — IS classified
and fires `init`, because the guard regex's `.` does not match the line
terminator in the middle (third conjunct). -/
theorem c7_guard_counterexample :
    handleStorage ⟨none, [Sub.mk .init 1], []⟩ (some "") none (some "x") = [] ∧
    fireCallback ⟨none, [Sub.mk .init 1], []⟩ .init (some "")
      = [.named 1 (some "")] ∧
    handleStorage ⟨none, [Sub.mk .init 1], []⟩ (some "$$a\nb_data") none
      (some "x") = [.named 1 (some "$$a\nb_data")] :=
  ⟨rfl, rfl, rfl⟩

/-- C7 (amended): a notification whose key is absent or empty fires nothing;
a key matching the guard regex `^(\$\$)(.*)(_data)$` under JS semantics
(`'$$'` prefix, `'_data'` suffix, middle free of line terminators) fires
nothing; for every other present key, old absent & new present fires `init`,
both present fires `set`, old present & new absent fires `remove`, and both
absent fires nothing — all through the same `fireCallback` path as local
operations. -/
theorem c7_handleStorage_classification (s : Session) :
    (∀ o n, handleStorage s none o n = []) ∧
    (∀ o n, handleStorage s (some "") o n = []) ∧
    (∀ k o n, shadowRegexMatch k = true → handleStorage s (some k) o n = []) ∧
    (∀ k, k ≠ "" → shadowRegexMatch k = false →
      (∀ v, handleStorage s (some k) none (some v) = fireCallback s .init (some k)) ∧
      (∀ o v, handleStorage s (some k) (some o) (some v)
        = fireCallback s .set (some k)) ∧
      (∀ o, handleStorage s (some k) (some o) none
        = fireCallback s .remove (some k)) ∧
      handleStorage s (some k) none none = []) := by
  refine ⟨fun o n => rfl, fun o n => by simp [handleStorage], ?_, ?_⟩
  · intro k o n hsm
    simp [handleStorage, hsm]
  · intro k hne hsm
    refine ⟨fun v => ?_, fun o v => ?_, fun o => ?_, ?_⟩ <;>
      simp [handleStorage, hne, hsm]

theorem c7_handleStorage_classification_witness :
    handleStorage ⟨none, [Sub.mk .init 1], []⟩ (some "k") none (some "x")
      = fireCallback ⟨none, [Sub.mk .init 1], []⟩ .init (some "k") :=
  ((c7_handleStorage_classification ⟨none, [Sub.mk .init 1], []⟩).2.2.2 "k"
    (by decide) rfl).1 "x"

/-! ## Claim C8: `init` and `set` agree at the storage level -/

/-- C8: on an Active session, `init(key, value)` performs exactly the writes
of `set(key, value)` (the resulting session is the same), both are
idempotent at the storage level under repetition, and the two differ only in
the event name they fire (`init` versus `set`). -/
theorem c8_init_set_storage_equal (s : Session) (st : Storage) (k : String)
    (v : JSValue) (h : s.medium = some st) :
    init s k v = .ok ((set s k v).1, fireCallback s .init (some k)) ∧
    (set s k v).2 = fireCallback s .set (some k) ∧
    applyOp st (.init k v) = applyOp st (.set k v) ∧
    applyOp (applyOp st (.init k v)) (.init k v) = applyOp st (.init k v) ∧
    applyOp (applyOp st (.set k v)) (.set k v) = applyOp st (.set k v) := by
  have hidem : applyOp (applyOp st (.set k v)) (.set k v) = applyOp st (.set k v) := by
    funext x
    by_cases hb : x = shadowKey k <;> by_cases ha : x = k <;>
      simp [applyOp, setItem, hb, ha]
  exact ⟨by simp [init, set, h], by simp [set, h], rfl, hidem, hidem⟩

theorem c8_init_set_storage_equal_witness :
    init ⟨some emptyStorage, [], []⟩ "k" .null
      = .ok ((set ⟨some emptyStorage, [], []⟩ "k" .null).1,
          fireCallback ⟨some emptyStorage, [], []⟩ .init (some "k")) ∧
    (set ⟨some emptyStorage, [], []⟩ "k" .null).2
      = fireCallback ⟨some emptyStorage, [], []⟩ .set (some "k") ∧
    applyOp emptyStorage (.init "k" .null) = applyOp emptyStorage (.set "k" .null) ∧
    applyOp (applyOp emptyStorage (.init "k" .null)) (.init "k" .null)
      = applyOp emptyStorage (.init "k" .null) ∧
    applyOp (applyOp emptyStorage (.set "k" .null)) (.set "k" .null)
      = applyOp emptyStorage (.set "k" .null) :=
  c8_init_set_storage_equal ⟨some emptyStorage, [], []⟩ emptyStorage "k" .null rfl

theorem c10_get_fires_before_decode_witness :
    (get ⟨some (setItem (setItem emptyStorage "x" "nope")
      (shadowKey "x") "object"), [Sub.mk .get 3], [4]⟩ "x").2
      = fireCallback ⟨some (setItem (setItem emptyStorage "x" "nope")
          (shadowKey "x") "object"), [Sub.mk .get 3], [4]⟩ .get (some "x") :=
  (c10_get_fires_before_decode ⟨some (setItem (setItem emptyStorage "x" "nope")
    (shadowKey "x") "object"), [Sub.mk .get 3], [4]⟩ "x" .decodeError rfl).1

end ULS
